import Mathlib

/-!
Shallow embedding of the session pool in `spannerr.go` (package `spannerr`).

The pool state is `client`: a map from session name to a "taken" flag
(`sessions map[string]bool` in the source), plus the connection string and
the capacity `maxSessions`.  The Go map is modelled as an association list
with unique keys; map assignment (`m[k] = v`) updates the first matching
entry in place or appends a new one, and the `range` loop of
`AcquireSession` iterates in list order (Go's iteration order is
unspecified, so the list order is one admissible determinization; the
claims proved below do not depend on which free record the loop lands on,
only on the record it does land on, named by `findFree`).

Remote calls are modelled by oracles passed in explicitly:
`ns : Except String Unit` is the outcome of `newSpanner(ctx)` (backend
client initialization), `cr : Except String String` is the outcome of
`sess.Create(...).Do()` (the created session's name, or an error), and
`del : String -> Except String Unit` gives the outcome of
`sess.Delete(name).Do()` for each name during `Close`.
-/

namespace Spannerr

/-- Errors produced by the pool, mirroring the source's error values:
`errors.Wrap(err, "unable to init spanner service")`,
`errors.Wrap(err, "unable to init spanner session")`,
`errors.Errorf("all %d sessions are in use. ...", len(c.sessions))`,
and the raw error returned from `sess.Delete(s).Do()` in `Close`. -/
inductive SpErr where
  | initService (inner : String)
  | initSession (inner : String)
  | exhausted (n : Nat)
  | deleteFailed (inner : String)
deriving DecidableEq

/-- The rendered error message, as `pkg/errors` would produce it
(`Wrap` renders as `"msg: cause"`, `Errorf` formats the count in). -/
def SpErr.message : SpErr → String
  | .initService e => "unable to init spanner service: " ++ e
  | .initSession e => "unable to init spanner session: " ++ e
  | .exhausted n =>
      "all " ++ toString n ++
        " sessions are in use. you may need to increase your session pool size."
  | .deleteFailed e => e

/-- A session handle: the source's `session` struct holds the remote name
and a backend service pointer; only the name is pool-relevant state (the
service pointer is transport, rebuilt by `newSpanner` on each acquire). -/
structure Session where
  name : String
deriving DecidableEq

/-- The source's `client` struct: the session map, the connection target
and the capacity.  The mutex only serializes operations and has no
sequential content. -/
structure Client where
  sessions : List (String × Bool)
  conn : String
  maxSessions : Nat
deriving DecidableEq

/-- Go map read `m[k]`: first entry with the key, if any. -/
def mapGet : List (String × Bool) → String → Option Bool
  | [], _ => none
  | (k, v) :: rest, key => if k = key then some v else mapGet rest key

/-- Go map assignment `m[k] = v`: update the entry in place, or insert. -/
def mapSet : List (String × Bool) → String → Bool → List (String × Bool)
  | [], key, val => [(key, val)]
  | (k, v) :: rest, key, val =>
      if k = key then (key, val) :: rest else (k, v) :: mapSet rest key val

/-- The record the `range` loop of `AcquireSession` lands on: the first
entry whose taken flag is `false`. -/
def findFree : List (String × Bool) → Option String
  | [] => none
  | (name, taken) :: rest => if taken then findFree rest else some name

/-- `NewClient(project, instances, database, maxSessions)`. -/
def NewClient (project instances database : String) (maxSessions : Nat) : Client :=
  { conn := "projects/" ++ project ++ "/instances/" ++ instances ++
      "/databases/" ++ database
    maxSessions := maxSessions
    sessions := [] }

/-- `(c *client) newSession(ctx)`: init the spanner service, then create a
remote session; each failure is wrapped and returned. -/
def newSession (ns : Except String Unit) (cr : Except String String) :
    Except SpErr Session :=
  match ns with
  | .error e => .error (.initService e)
  | .ok _ =>
      match cr with
      | .error e => .error (.initSession e)
      | .ok name => .ok ⟨name⟩

/-- `(c *client) AcquireSession(ctx)`.  Returns the result together with
the post-state of the client (the source mutates `c.sessions` in place).
Under capacity it creates a brand-new session and inserts it taken;
otherwise it marks the first free record taken, re-inits the backend
client, and returns a handle for the same name; with no free record it
fails with the occupancy-reporting error.  Note that on the reuse path the
record is marked taken before `newSpanner` is called, so that marking
survives an init failure. -/
def AcquireSession (c : Client) (ns : Except String Unit)
    (cr : Except String String) : Except SpErr Session × Client :=
  if c.sessions.length < c.maxSessions then
    match newSession ns cr with
    | .error e => (.error e, c)
    | .ok sess => (.ok sess, { c with sessions := mapSet c.sessions sess.name true })
  else
    match findFree c.sessions with
    | some name =>
        let sessions' := mapSet c.sessions name true
        match ns with
        | .error e => (.error (.initService e), { c with sessions := sessions' })
        | .ok _ => (.ok ⟨name⟩, { c with sessions := sessions' })
    | none => (.error (.exhausted c.sessions.length), c)

/-- `(c *client) ReleaseSession(ctx, sess)`: `c.sessions[sess.Name()] = false`.
Total; stores no timestamp; inserts the key when it is absent. -/
def ReleaseSession (c : Client) (sess : Session) : Client :=
  { c with sessions := mapSet c.sessions sess.name false }

/-- The delete loop of `Close`: issue `sess.Delete(s).Do()` for each
tracked name in order, stopping at (and returning) the first error. -/
def closeLoop (del : String → Except String Unit) :
    List (String × Bool) → Except String Unit
  | [] => .ok ()
  | (name, _) :: rest =>
      match del name with
      | .error e => .error e
      | .ok _ => closeLoop del rest

/-- The names `Close` actually issues a remote delete for: every name up to
and including the first failing one. -/
def closeIssued (del : String → Except String Unit) :
    List (String × Bool) → List String
  | [] => []
  | (name, _) :: rest =>
      match del name with
      | .error _ => [name]
      | .ok _ => name :: closeIssued del rest

/-- `(c *client) Close(ctx)`: init the spanner service (failure is wrapped
and returned before any delete), then run the delete loop.  The session
map itself is never modified. -/
def Close (c : Client) (ns : Except String Unit)
    (del : String → Except String Unit) : Except SpErr Unit × Client :=
  match ns with
  | .error e => (.error (.initService e), c)
  | .ok _ =>
      match closeLoop del c.sessions with
      | .error e => (.error (.deleteFailed e), c)
      | .ok _ => (.ok (), c)

/-- Keys of the session map. -/
def keys (s : List (String × Bool)) : List String := s.map Prod.fst

/-- The session map has no duplicate keys (holds in every reachable state;
`mapSet` preserves it). -/
def KeysNodup (s : List (String × Bool)) : Prop := (keys s).Nodup

instance (s : List (String × Bool)) : Decidable (KeysNodup s) := by
  unfold KeysNodup; infer_instance

/-- One client operation, with its remote-call oracles. -/
inductive Op where
  | acquire (ns : Except String Unit) (cr : Except String String)
  | release (name : String)
  | close (ns : Except String Unit) (del : String → Except String Unit)

/-- The post-state of one operation. -/
def step (c : Client) : Op → Client
  | .acquire ns cr => (AcquireSession c ns cr).2
  | .release name => ReleaseSession c ⟨name⟩
  | .close ns del => (Close c ns del).2

/-- The state after a sequence of operations. -/
def run (c : Client) : List Op → Client
  | [] => c
  | op :: ops => run (step c op) ops

/-- A run in which every released handle names a session the pool is
currently tracking (in particular, one previously returned by
`AcquireSession`: acquired names are inserted into the map and no
operation ever removes a key). -/
def validRun (c : Client) : List Op → Prop
  | [] => True
  | op :: ops =>
      (match op with
       | .release name => name ∈ keys c.sessions
       | _ => True) ∧ validRun (step c op) ops

/-- A one-slot pool holding a single free session named `s1`. -/
def poolFree1 : Client :=
  { sessions := [("s1", false)], conn := "projects/p/instances/i/databases/d"
    maxSessions := 1 }

/-- A one-slot pool whose single session `s1` is in use. -/
def poolTaken1 : Client :=
  { sessions := [("s1", true)], conn := "projects/p/instances/i/databases/d"
    maxSessions := 1 }

/-- A two-slot pool with `s1` in use and `s2` free. -/
def poolCD : Client :=
  { sessions := [("s1", true), ("s2", false)]
    conn := "projects/p/instances/i/databases/d"
    maxSessions := 2 }

/-- A delete oracle that fails on `s2` and succeeds elsewhere. -/
def delCD : String → Except String Unit :=
  fun n => if n = "s2" then .error "boom" else .ok ()

/-! ### Map lemmas -/

theorem mapGet_mapSet_self (s : List (String × Bool)) (k : String) (v : Bool) :
    mapGet (mapSet s k v) k = some v := by
  induction s with
  | nil => simp [mapGet, mapSet]
  | cons p rest ih =>
      obtain ⟨k', v'⟩ := p
      by_cases h : k' = k
      · simp [mapGet, mapSet, h]
      · simp [mapGet, mapSet, h, ih]

theorem mapGet_mapSet_ne (s : List (String × Bool)) (k m : String) (v : Bool)
    (h : m ≠ k) : mapGet (mapSet s k v) m = mapGet s m := by
  have h2 : k ≠ m := Ne.symm h
  induction s with
  | nil => simp [mapGet, mapSet, h2]
  | cons p rest ih =>
      obtain ⟨k', v'⟩ := p
      by_cases hk : k' = k
      · subst hk
        simp [mapGet, mapSet, h2]
      · by_cases hm : k' = m
        · subst hm
          simp [mapGet, mapSet, hk]
        · simp [mapGet, mapSet, hk, hm, ih]

theorem keys_cons (p : String × Bool) (rest : List (String × Bool)) :
    keys (p :: rest) = p.1 :: keys rest := rfl

theorem mapGet_eq_none_iff (s : List (String × Bool)) (k : String) :
    mapGet s k = none ↔ k ∉ keys s := by
  induction s with
  | nil => simp [mapGet, keys]
  | cons p rest ih =>
      obtain ⟨k', v'⟩ := p
      by_cases h : k' = k
      · subst h
        simp [mapGet, keys_cons]
      · simp [mapGet, keys_cons, h, ih, Ne.symm h]

theorem mapSet_of_get_none (s : List (String × Bool)) (k : String) (v : Bool)
    (h : mapGet s k = none) : mapSet s k v = s ++ [(k, v)] := by
  induction s with
  | nil => simp [mapSet]
  | cons p rest ih =>
      obtain ⟨k', v'⟩ := p
      by_cases hk : k' = k
      · simp [mapGet, hk] at h
      · simp [mapGet, hk] at h
        simp [mapSet, hk, ih h]

theorem keys_mapSet_of_mem (s : List (String × Bool)) (k : String) (v : Bool)
    (h : k ∈ keys s) : keys (mapSet s k v) = keys s := by
  induction s with
  | nil => simp [keys] at h
  | cons p rest ih =>
      obtain ⟨k', v'⟩ := p
      by_cases hk : k' = k
      · simp [mapSet, keys_cons, hk]
      · rw [keys_cons] at h
        simp at h
        rcases h with h | h
        · exact absurd h.symm hk
        · simp [mapSet, keys_cons, hk]
          exact ih h

theorem length_mapSet_of_mem (s : List (String × Bool)) (k : String) (v : Bool)
    (h : k ∈ keys s) : (mapSet s k v).length = s.length := by
  have := keys_mapSet_of_mem s k v h
  have h1 : (keys (mapSet s k v)).length = (keys s).length := by rw [this]
  simpa [keys] using h1

theorem length_mapSet_le (s : List (String × Bool)) (k : String) (v : Bool) :
    (mapSet s k v).length ≤ s.length + 1 := by
  by_cases h : k ∈ keys s
  · rw [length_mapSet_of_mem s k v h]; omega
  · rw [mapSet_of_get_none s k v ((mapGet_eq_none_iff s k).mpr h)]
    simp

theorem mapSet_self_of_get (s : List (String × Bool)) (k : String) (v : Bool)
    (h : mapGet s k = some v) : mapSet s k v = s := by
  induction s with
  | nil => simp [mapGet] at h
  | cons p rest ih =>
      obtain ⟨k', v'⟩ := p
      by_cases hk : k' = k
      · subst hk
        simp [mapGet] at h
        simp [mapSet, h]
      · simp [mapGet, hk] at h
        simp [mapSet, hk, ih h]

theorem keys_append (s t : List (String × Bool)) :
    keys (s ++ t) = keys s ++ keys t := by
  simp [keys]

theorem keys_mapSet_nodup (s : List (String × Bool)) (k : String) (v : Bool)
    (h : KeysNodup s) : KeysNodup (mapSet s k v) := by
  by_cases hm : k ∈ keys s
  · unfold KeysNodup
    rw [keys_mapSet_of_mem s k v hm]
    exact h
  · unfold KeysNodup at *
    rw [mapSet_of_get_none s k v ((mapGet_eq_none_iff s k).mpr hm), keys_append]
    rw [List.nodup_append]
    refine ⟨h, by simp [keys], ?_⟩
    intro a ha hb
    simp [keys] at hb
    subst hb
    exact hm ha

/-! ### findFree lemmas -/

theorem findFree_mem (s : List (String × Bool)) (n : String)
    (h : findFree s = some n) : n ∈ keys s := by
  induction s with
  | nil => simp [findFree] at h
  | cons p rest ih =>
      obtain ⟨k', v'⟩ := p
      by_cases hv : v'
      · subst hv
        simp [findFree] at h
        rw [keys_cons]
        exact List.mem_cons_of_mem _ (ih h)
      · simp [eq_false_of_ne_true hv, findFree] at h
        rw [keys_cons]
        simp [h]

theorem findFree_get (s : List (String × Bool)) (n : String)
    (hnd : KeysNodup s) (h : findFree s = some n) : mapGet s n = some false := by
  induction s with
  | nil => simp [findFree] at h
  | cons p rest ih =>
      obtain ⟨k', v'⟩ := p
      unfold KeysNodup at hnd
      rw [keys_cons, List.nodup_cons] at hnd
      by_cases hv : v'
      · subst hv
        simp [findFree] at h
        have hne : k' ≠ n := by
          intro hkn
          exact hnd.1 (by rw [hkn]; exact findFree_mem rest n h)
        simp [mapGet, hne]
        exact ih hnd.2 h
      · simp [eq_false_of_ne_true hv, findFree] at h
        simp [mapGet, h, eq_false_of_ne_true hv]

theorem findFree_none (s : List (String × Bool)) (h : findFree s = none) :
    ∀ p ∈ s, p.2 = true := by
  induction s with
  | nil => simp
  | cons p rest ih =>
      obtain ⟨k', v'⟩ := p
      by_cases hv : v'
      · subst hv
        simp [findFree] at h
        simpa using ih h
      · simp [eq_false_of_ne_true hv, findFree] at h

/-! ### AcquireSession inversion and state lemmas -/

theorem acquire_ok_inv (c : Client) (ns : Except String Unit)
    (cr : Except String String) (sess : Session) (c' : Client)
    (h : AcquireSession c ns cr = (.ok sess, c')) :
    c' = { c with sessions := mapSet c.sessions sess.name true } ∧
    ((c.sessions.length < c.maxSessions ∧ cr = .ok sess.name) ∨
     (¬ c.sessions.length < c.maxSessions ∧ findFree c.sessions = some sess.name)) := by
  unfold AcquireSession at h
  by_cases hcap : c.sessions.length < c.maxSessions
  · simp only [hcap, if_true] at h
    cases ns with
    | error e => simp [newSession] at h
    | ok u =>
        cases cr with
        | error e => simp [newSession] at h
        | ok name =>
            simp [newSession] at h
            obtain ⟨h1, h2⟩ := h
            subst h1
            exact ⟨h2.symm, Or.inl ⟨hcap, rfl⟩⟩
  · simp only [hcap, if_false] at h
    cases hfree : findFree c.sessions with
    | none => simp [hfree] at h
    | some n =>
        simp only [hfree] at h
        cases ns with
        | error e => simp at h
        | ok u =>
            simp at h
            obtain ⟨h1, h2⟩ := h
            subst h1
            exact ⟨h2.symm, Or.inr ⟨hcap, rfl⟩⟩

theorem acquire_ok_not_taken (c : Client) (ns : Except String Unit)
    (cr : Except String String) (sess : Session) (c' : Client)
    (hnd : KeysNodup c.sessions)
    (hfresh : ∀ name, cr = .ok name → mapGet c.sessions name = none)
    (h : AcquireSession c ns cr = (.ok sess, c')) :
    mapGet c.sessions sess.name ≠ some true := by
  obtain ⟨-, hcases⟩ := acquire_ok_inv c ns cr sess c' h
  rcases hcases with ⟨-, hcr⟩ | ⟨-, hfree⟩
  · rw [hfresh sess.name hcr]
    simp
  · rw [findFree_get _ _ hnd hfree]
    simp

theorem acquire_post_maxSessions (c : Client) (ns : Except String Unit)
    (cr : Except String String) :
    (AcquireSession c ns cr).2.maxSessions = c.maxSessions := by
  unfold AcquireSession
  by_cases hcap : c.sessions.length < c.maxSessions
  · simp only [hcap, if_true]
    cases ns with
    | error e => simp [newSession]
    | ok u =>
        cases cr with
        | error e => simp [newSession]
        | ok name => simp [newSession]
  · simp only [hcap, if_false]
    cases hfree : findFree c.sessions with
    | none => simp
    | some n =>
        cases ns with
        | error e => simp [hfree]
        | ok u => simp [hfree]

theorem acquire_post_length (c : Client) (ns : Except String Unit)
    (cr : Except String String) (hinv : c.sessions.length ≤ c.maxSessions) :
    (AcquireSession c ns cr).2.sessions.length ≤ c.maxSessions := by
  unfold AcquireSession
  by_cases hcap : c.sessions.length < c.maxSessions
  · simp only [hcap, if_true]
    cases ns with
    | error e => simpa [newSession] using hinv
    | ok u =>
        cases cr with
        | error e => simpa [newSession] using hinv
        | ok name =>
            simp only [newSession]
            calc (mapSet c.sessions name true).length
                ≤ c.sessions.length + 1 := length_mapSet_le c.sessions name true
              _ ≤ c.maxSessions := hcap
  · simp only [hcap, if_false]
    cases hfree : findFree c.sessions with
    | none => simpa [hfree] using hinv
    | some n =>
        have hlen : (mapSet c.sessions n true).length = c.sessions.length :=
          length_mapSet_of_mem c.sessions n true (findFree_mem c.sessions n hfree)
        cases ns with
        | error e => simpa [hfree, hlen] using hinv
        | ok u => simpa [hfree, hlen] using hinv

theorem close_state (c : Client) (ns : Except String Unit)
    (del : String → Except String Unit) : (Close c ns del).2 = c := by
  unfold Close
  cases ns with
  | error e => rfl
  | ok u =>
      cases hcl : closeLoop del c.sessions with
      | error e => simp [hcl]
      | ok v => simp [hcl]

/-! ### closeLoop lemmas -/

theorem closeLoop_ok_iff (del : String → Except String Unit)
    (s : List (String × Bool)) :
    closeLoop del s = .ok () ↔ ∀ p ∈ s, del p.1 = .ok () := by
  induction s with
  | nil => simp [closeLoop]
  | cons p rest ih =>
      obtain ⟨name, b⟩ := p
      cases hd : del name with
      | error e => simp [closeLoop, hd]
      | ok u =>
          cases u
          simp [closeLoop, hd, ih]

theorem closeLoop_error (del : String → Except String Unit)
    (l1 : List (String × Bool)) (n : String) (b : Bool)
    (l2 : List (String × Bool)) (e : String)
    (h1 : ∀ p ∈ l1, del p.1 = .ok ()) (h2 : del n = .error e) :
    closeLoop del (l1 ++ (n, b) :: l2) = .error e := by
  induction l1 with
  | nil => simp [closeLoop, h2]
  | cons p rest ih =>
      obtain ⟨nm, bb⟩ := p
      have hp : del nm = .ok () := h1 (nm, bb) (by simp)
      simp [closeLoop, hp]
      exact ih fun q hq => h1 q (by simp [hq])

theorem closeIssued_error (del : String → Except String Unit)
    (l1 : List (String × Bool)) (n : String) (b : Bool)
    (l2 : List (String × Bool)) (e : String)
    (h1 : ∀ p ∈ l1, del p.1 = .ok ()) (h2 : del n = .error e) :
    closeIssued del (l1 ++ (n, b) :: l2) = keys l1 ++ [n] := by
  induction l1 with
  | nil => simp [closeIssued, h2, keys]
  | cons p rest ih =>
      obtain ⟨nm, bb⟩ := p
      have hp : del nm = .ok () := h1 (nm, bb) (by simp)
      simp [closeIssued, hp, keys_cons]
      exact ih fun q hq => h1 q (by simp [hq])

theorem acquire_post_nodup (c : Client) (ns : Except String Unit)
    (cr : Except String String) (h : KeysNodup c.sessions) :
    KeysNodup (AcquireSession c ns cr).2.sessions := by
  unfold AcquireSession
  by_cases hcap : c.sessions.length < c.maxSessions
  · simp only [hcap, if_true]
    cases ns with
    | error e => simpa [newSession] using h
    | ok u =>
        cases cr with
        | error e => simpa [newSession] using h
        | ok name =>
            simp only [newSession]
            exact keys_mapSet_nodup c.sessions name true h
  · simp only [hcap, if_false]
    cases hfree : findFree c.sessions with
    | none => simpa using h
    | some n =>
        cases ns with
        | error e => simpa using keys_mapSet_nodup c.sessions n true h
        | ok u => simpa using keys_mapSet_nodup c.sessions n true h

/-- Every state reachable from a pool with duplicate-free keys (in
particular from `NewClient`, whose map is empty) again has duplicate-free
keys: the `KeysNodup` hypotheses used below hold in every reachable state. -/
theorem run_keysNodup (ops : List Op) : ∀ c : Client,
    KeysNodup c.sessions → KeysNodup (run c ops).sessions := by
  induction ops with
  | nil =>
      intro c h
      exact h
  | cons op rest ih =>
      intro c h
      refine ih (step c op) ?_
      cases op with
      | acquire ns cr => exact acquire_post_nodup c ns cr h
      | release name => exact keys_mapSet_nodup c.sessions name false h
      | close ns del =>
          show KeysNodup (Close c ns del).2.sessions
          rw [close_state]
          exact h

/-! ### Claim theorems -/

/-- C1, counterexample.  The source keeps no `lastReleasedAt` timestamp and no
`idleTimeout`: `AcquireSession` takes no time input at all, so this run covers
an Acquire made arbitrarily long after the release — in particular more than
any idle timeout after it.  A full one-slot pool whose session `s1` has just
been released (by `ReleaseSession`) is acquired again: contrary to the claim,
the record is not deleted, no new remote session is created (the create oracle
offering `s2` is never consulted), and the returned handle is bound to the
same old name `s1`, not a distinct new one. -/
theorem c1_expiry_counterexample :
    AcquireSession
        (ReleaseSession
          { sessions := [("s1", true)], conn := "projects/p/instances/i/databases/d"
            maxSessions := 1 } ⟨"s1"⟩)
        (.ok ()) (.ok "s2") =
      (.ok ⟨"s1"⟩,
        { sessions := [("s1", true)], conn := "projects/p/instances/i/databases/d"
          maxSessions := 1 }) := by
  rfl

/-- C1, amended: at full capacity an Acquire that lands on a free record
always reuses it, no matter how long ago it was released (the pool stores no
timestamps and has no idle-timeout): the record is marked in-use and a handle
with the same name is returned, no record is deleted from the map, and no new
remote session is created (the outcome is independent of the create oracle). -/
theorem c1_no_expiry_always_reuse (c : Client) (n : String)
    (cr cr' : Except String String)
    (hcap : ¬ c.sessions.length < c.maxSessions)
    (hfree : findFree c.sessions = some n) :
    AcquireSession c (.ok ()) cr =
      (.ok ⟨n⟩, { c with sessions := mapSet c.sessions n true }) ∧
    AcquireSession c (.ok ()) cr = AcquireSession c (.ok ()) cr' ∧
    keys (mapSet c.sessions n true) = keys c.sessions := by
  refine ⟨?_, ?_, keys_mapSet_of_mem c.sessions n true (findFree_mem c.sessions n hfree)⟩
  · unfold AcquireSession
    simp [hcap, hfree]
  · unfold AcquireSession
    simp [hcap, hfree]

/-- Witness for the amended C1 at a concrete one-slot pool. -/
theorem c1_no_expiry_always_reuse_witness :
    ¬ poolFree1.sessions.length < poolFree1.maxSessions ∧
    findFree poolFree1.sessions = some "s1" ∧
    (AcquireSession poolFree1 (.ok ()) (.ok "s2") =
        (.ok ⟨"s1"⟩, { poolFree1 with sessions := mapSet poolFree1.sessions "s1" true }) ∧
      AcquireSession poolFree1 (.ok ()) (.ok "s2") =
        AcquireSession poolFree1 (.ok ()) (.error "boom") ∧
      keys (mapSet poolFree1.sessions "s1" true) = keys poolFree1.sessions) :=
  ⟨by decide, rfl,
    c1_no_expiry_always_reuse poolFree1 "s1" (.ok "s2") (.error "boom")
      (by decide) rfl⟩

/-- C2: a successful Acquire returns a session whose record was not in-use
immediately before the call (it is either a name absent from the map — a
freshly created record — or a record marked free) and whose record is in-use
in the post-state; consequently a second successful Acquire issued before any
release cannot return the same name, so no two callers simultaneously hold
handles for the same in-use name.  The freshness hypotheses state the remote
backend's contract that created session names are globally unique, hence not
already in the map. -/
theorem c2_acquire_returns_non_in_use (c : Client) (ns : Except String Unit)
    (cr : Except String String) (sess : Session) (c' : Client)
    (hnd : KeysNodup c.sessions)
    (hfresh : ∀ name, cr = .ok name → mapGet c.sessions name = none)
    (h : AcquireSession c ns cr = (.ok sess, c')) :
    mapGet c.sessions sess.name ≠ some true ∧
    mapGet c'.sessions sess.name = some true ∧
    ∀ ns2 cr2 sess2 c'',
      (∀ name, cr2 = .ok name → mapGet c'.sessions name = none) →
      AcquireSession c' ns2 cr2 = (.ok sess2, c'') → sess2.name ≠ sess.name := by
  obtain ⟨hc', -⟩ := acquire_ok_inv c ns cr sess c' h
  have hpre := acquire_ok_not_taken c ns cr sess c' hnd hfresh h
  have hpost : mapGet c'.sessions sess.name = some true := by
    rw [hc']
    exact mapGet_mapSet_self c.sessions sess.name true
  refine ⟨hpre, hpost, ?_⟩
  intro ns2 cr2 sess2 c'' hfresh2 h2
  have hnd' : KeysNodup c'.sessions := by
    rw [hc']
    exact keys_mapSet_nodup c.sessions sess.name true hnd
  have := acquire_ok_not_taken c' ns2 cr2 sess2 c'' hnd' hfresh2 h2
  intro heq
  rw [heq] at this
  exact this hpost

/-- Witness for C2: an empty one-slot pool; the backend creates `s1`. -/
theorem c2_acquire_returns_non_in_use_witness :
    KeysNodup (NewClient "p" "i" "d" 1).sessions ∧
    (mapGet (NewClient "p" "i" "d" 1).sessions "s1" ≠ some true ∧
      mapGet poolTaken1.sessions "s1" = some true ∧
      ∀ ns2 cr2 sess2 c'',
        (∀ name, cr2 = .ok name → mapGet poolTaken1.sessions name = none) →
        AcquireSession poolTaken1 ns2 cr2 = (.ok sess2, c'') →
        sess2.name ≠ "s1") :=
  ⟨by decide,
    c2_acquire_returns_non_in_use (NewClient "p" "i" "d" 1) (.ok ()) (.ok "s1")
      ⟨"s1"⟩ poolTaken1 (by decide) (fun name _ => rfl) rfl⟩

/-- C3: while the pool is under capacity, Acquire creates a brand-new remote
session (the backend's created name `n` is returned), inserts its record
marked in-use, and occupancy grows by exactly one; every pre-existing record
is untouched, so no existing free record is reused.  The hypothesis that `n`
is not already a key encodes the backend contract that created names are
globally unique (the map's keys are never removed, so a name absent from the
map was also never before present). -/
theorem c3_under_capacity_creates_fresh (c : Client) (n : String)
    (hcap : c.sessions.length < c.maxSessions)
    (hfresh : mapGet c.sessions n = none) :
    AcquireSession c (.ok ()) (.ok n) =
      (.ok ⟨n⟩, { c with sessions := mapSet c.sessions n true }) ∧
    mapGet (mapSet c.sessions n true) n = some true ∧
    (mapSet c.sessions n true).length = c.sessions.length + 1 ∧
    ∀ m, m ≠ n → mapGet (mapSet c.sessions n true) m = mapGet c.sessions m := by
  refine ⟨?_, mapGet_mapSet_self c.sessions n true, ?_, ?_⟩
  · unfold AcquireSession
    simp [hcap, newSession]
  · rw [mapSet_of_get_none c.sessions n true hfresh]
    simp
  · intro m hm
    exact mapGet_mapSet_ne c.sessions n m true hm

/-- Witness for C3 at an empty one-slot pool. -/
theorem c3_under_capacity_creates_fresh_witness :
    (NewClient "p" "i" "d" 1).sessions.length < (NewClient "p" "i" "d" 1).maxSessions ∧
    mapGet (NewClient "p" "i" "d" 1).sessions "s1" = none ∧
    (AcquireSession (NewClient "p" "i" "d" 1) (.ok ()) (.ok "s1") =
        (.ok ⟨"s1"⟩,
          { NewClient "p" "i" "d" 1 with
              sessions := mapSet (NewClient "p" "i" "d" 1).sessions "s1" true }) ∧
      mapGet (mapSet (NewClient "p" "i" "d" 1).sessions "s1" true) "s1" = some true ∧
      (mapSet (NewClient "p" "i" "d" 1).sessions "s1" true).length =
        (NewClient "p" "i" "d" 1).sessions.length + 1 ∧
      ∀ m, m ≠ "s1" →
        mapGet (mapSet (NewClient "p" "i" "d" 1).sessions "s1" true) m =
          mapGet (NewClient "p" "i" "d" 1).sessions m) :=
  ⟨by decide, rfl,
    c3_under_capacity_creates_fresh (NewClient "p" "i" "d" 1) "s1" (by decide) rfl⟩

/-- C4: at full capacity with a free record, Acquire succeeds without creating
a new remote session — the create oracle `cr` is arbitrary and unused, only
the backend client re-initialization (`newSpanner`, here succeeding) runs —
marks the first free record in-use, and returns a handle bound to the same,
previously-free name; occupancy is unchanged.  The source tracks no
timestamps, so every free record is "unexpired". -/
theorem c4_full_capacity_reuses_free (c : Client) (n : String)
    (cr : Except String String)
    (hnd : KeysNodup c.sessions)
    (hcap : ¬ c.sessions.length < c.maxSessions)
    (hfree : findFree c.sessions = some n) :
    AcquireSession c (.ok ()) cr =
      (.ok ⟨n⟩, { c with sessions := mapSet c.sessions n true }) ∧
    mapGet c.sessions n = some false ∧
    mapGet (mapSet c.sessions n true) n = some true ∧
    (mapSet c.sessions n true).length = c.sessions.length := by
  refine ⟨?_, findFree_get c.sessions n hnd hfree,
    mapGet_mapSet_self c.sessions n true,
    length_mapSet_of_mem c.sessions n true (findFree_mem c.sessions n hfree)⟩
  unfold AcquireSession
  simp [hcap, hfree]

/-- Witness for C4 at a full one-slot pool with `s1` free. -/
theorem c4_full_capacity_reuses_free_witness :
    KeysNodup poolFree1.sessions ∧
    ¬ poolFree1.sessions.length < poolFree1.maxSessions ∧
    findFree poolFree1.sessions = some "s1" ∧
    (AcquireSession poolFree1 (.ok ()) (.ok "s2") =
        (.ok ⟨"s1"⟩, { poolFree1 with sessions := mapSet poolFree1.sessions "s1" true }) ∧
      mapGet poolFree1.sessions "s1" = some false ∧
      mapGet (mapSet poolFree1.sessions "s1" true) "s1" = some true ∧
      (mapSet poolFree1.sessions "s1" true).length = poolFree1.sessions.length) :=
  ⟨by decide, by decide, rfl,
    c4_full_capacity_reuses_free poolFree1 "s1" (.ok "s2") (by decide) (by decide) rfl⟩

/-- C5: at full capacity with no free record, Acquire fails with the
pool-exhausted error carrying the current occupancy, whose rendered message
reports that occupancy; the pool state is returned unchanged — every record
keeps its state.  The failure is the same for every oracle outcome: no remote
call is consulted. -/
theorem c5_exhausted_reports_occupancy (c : Client) (ns : Except String Unit)
    (cr : Except String String)
    (hcap : ¬ c.sessions.length < c.maxSessions)
    (hfree : findFree c.sessions = none) :
    AcquireSession c ns cr = (.error (.exhausted c.sessions.length), c) ∧
    (SpErr.exhausted c.sessions.length).message =
      "all " ++ toString c.sessions.length ++
        " sessions are in use. you may need to increase your session pool size." := by
  constructor
  · unfold AcquireSession
    simp [hcap, hfree]
  · rfl

/-- Witness for C5 at a full one-slot pool with `s1` in use. -/
theorem c5_exhausted_reports_occupancy_witness :
    ¬ poolTaken1.sessions.length < poolTaken1.maxSessions ∧
    findFree poolTaken1.sessions = none ∧
    (AcquireSession poolTaken1 (.ok ()) (.ok "s2") =
        (.error (.exhausted poolTaken1.sessions.length), poolTaken1) ∧
      (SpErr.exhausted poolTaken1.sessions.length).message =
        "all " ++ toString poolTaken1.sessions.length ++
          " sessions are in use. you may need to increase your session pool size.") :=
  ⟨by decide, rfl,
    c5_exhausted_reports_occupancy poolTaken1 (.ok ()) (.ok "s2") (by decide) rfl⟩

theorem run_length_le (ops : List Op) : ∀ c : Client,
    c.sessions.length ≤ c.maxSessions → validRun c ops →
    (run c ops).sessions.length ≤ c.maxSessions := by
  induction ops with
  | nil =>
      intro c hinv _
      exact hinv
  | cons op rest ih =>
      intro c hinv hvalid
      obtain ⟨hop, hrest⟩ := hvalid
      have hmax : (step c op).maxSessions = c.maxSessions := by
        cases op with
        | acquire ns cr => exact acquire_post_maxSessions c ns cr
        | release name => rfl
        | close ns del =>
            show (Close c ns del).2.maxSessions = c.maxSessions
            rw [close_state]
      have hlen : (step c op).sessions.length ≤ c.maxSessions := by
        cases op with
        | acquire ns cr => exact acquire_post_length c ns cr hinv
        | release name =>
            have hm : name ∈ keys c.sessions := hop
            show (mapSet c.sessions name false).length ≤ c.maxSessions
            rw [length_mapSet_of_mem c.sessions name false hm]
            exact hinv
        | close ns del =>
            show (Close c ns del).2.sessions.length ≤ c.maxSessions
            rw [close_state]
            exact hinv
      have hres := ih (step c op) (by rw [hmax]; exact hlen) hrest
      rw [hmax] at hres
      exact hres

/-- C6, counterexample: releasing handles the pool never issued is a legal
call of the exposed Release operation, and it grows the map past capacity:
from a freshly constructed pool of capacity 1, two Release calls with foreign
names leave 2 records in the map. -/
theorem c6_counterexample :
    (run (NewClient "p" "i" "d" 1) [.release "a", .release "b"]).sessions.length >
      (NewClient "p" "i" "d" 1).maxSessions := by
  decide

/-- C6, amended: after any sequence of Acquire, Release and Close operations
starting from a pool within capacity (in particular a freshly constructed
pool, whose map is empty) in which every Release names a session the pool is
currently tracking — as is the case whenever callers only release handles
previously returned by Acquire, since acquired names are in the map and no
operation removes keys — the number of records never exceeds the configured
capacity.  Releasing unknown handles is excluded: as the counterexample (and
C9) show, it grows the map beyond capacity. -/
theorem c6_capacity_never_exceeded (c : Client) (ops : List Op)
    (hinv : c.sessions.length ≤ c.maxSessions) (hvalid : validRun c ops) :
    (run c ops).sessions.length ≤ c.maxSessions :=
  run_length_le ops c hinv hvalid

/-- Witness for the amended C6: acquire then release on a fresh pool. -/
theorem c6_capacity_never_exceeded_witness :
    (NewClient "p" "i" "d" 1).sessions.length ≤ (NewClient "p" "i" "d" 1).maxSessions ∧
    validRun (NewClient "p" "i" "d" 1) [.acquire (.ok ()) (.ok "s1"), .release "s1"] ∧
    (run (NewClient "p" "i" "d" 1)
        [.acquire (.ok ()) (.ok "s1"), .release "s1"]).sessions.length ≤
      (NewClient "p" "i" "d" 1).maxSessions := by
  have hv : validRun (NewClient "p" "i" "d" 1)
      [.acquire (.ok ()) (.ok "s1"), .release "s1"] := by
    refine ⟨trivial, ?_, trivial⟩
    decide
  exact ⟨by decide, hv,
    c6_capacity_never_exceeded (NewClient "p" "i" "d" 1)
      [.acquire (.ok ()) (.ok "s1"), .release "s1"] (by decide) hv⟩

/-- C7: with the backend client initialized, Close walks every tracked record
in iteration order issuing a remote delete for its name; it reports success
exactly when every delete succeeded, and at the first failing delete it
returns that error and stops: the deletes actually issued are exactly the
names up to and including the failing one. -/
theorem c7_close_first_error (c : Client) (del : String → Except String Unit) :
    (Close c (.ok ()) del = (.ok (), c) ↔ ∀ p ∈ c.sessions, del p.1 = .ok ()) ∧
    (∀ l1 n b l2 e, c.sessions = l1 ++ (n, b) :: l2 →
      (∀ p ∈ l1, del p.1 = .ok ()) → del n = .error e →
      Close c (.ok ()) del = (.error (.deleteFailed e), c) ∧
      closeIssued del c.sessions = keys l1 ++ [n]) := by
  constructor
  · rw [← closeLoop_ok_iff del c.sessions]
    unfold Close
    cases hcl : closeLoop del c.sessions with
    | error e => simp [hcl]
    | ok u =>
        cases u
        simp [hcl]
  · intro l1 n b l2 e hs h1 h2
    have hcl : closeLoop del c.sessions = .error e := by
      rw [hs]
      exact closeLoop_error del l1 n b l2 e h1 h2
    constructor
    · unfold Close
      rw [hcl]
    · rw [hs]
      exact closeIssued_error del l1 n b l2 e h1 h2

/-- Witness for C7: a two-record pool whose delete oracle fails on the second
name: Close returns that first error and only the two leading deletes were
issued (here the failing one is the last). -/
theorem c7_close_first_error_witness :
    delCD "s2" = .error "boom" ∧
    Close poolCD (.ok ()) delCD = (.error (.deleteFailed "boom"), poolCD) ∧
    closeIssued delCD poolCD.sessions = ["s1", "s2"] :=
  ⟨rfl,
    (c7_close_first_error poolCD delCD).2 [("s1", true)] "s2" false [] "boom" rfl
      (by
        intro p hp
        rw [List.mem_singleton] at hp
        subst hp
        rfl)
      rfl⟩

/-- C8, counterexample: the source's ReleaseSession stores only a boolean per
name and never reads the clock, so the post-release pool state is one and the
same whether the release happened at time 0 or at time 1 — no reading
(`track`, an arbitrary function of the state) of the post-release state can
equal the current time of the call.  The claim's "stamps its lastReleasedAt
timestamp with the current time" is therefore false of this code at the
concrete one-slot pool `poolTaken1`. -/
theorem c8_no_timestamp_counterexample :
    ¬ ∃ track : Client → Option Nat,
        ∀ now : Nat, track (ReleaseSession poolTaken1 ⟨"s1"⟩) = some now := by
  rintro ⟨track, h⟩
  have h0 := h 0
  have h1 := h 1
  rw [h0] at h1
  simp at h1

/-- C8, amended: for every handle, Release marks its record not-in-use; no
lastReleasedAt timestamp exists to stamp (see the counterexample).  Every
other record is untouched, releasing a tracked handle leaves occupancy
unchanged, and releasing an already-free handle leaves the whole pool state
literally unchanged; ReleaseSession is a total function, so it cannot panic. -/
theorem c8_release_marks_free (c : Client) (name : String) :
    mapGet (ReleaseSession c ⟨name⟩).sessions name = some false ∧
    (∀ m, m ≠ name → mapGet (ReleaseSession c ⟨name⟩).sessions m = mapGet c.sessions m) ∧
    (name ∈ keys c.sessions →
      (ReleaseSession c ⟨name⟩).sessions.length = c.sessions.length) ∧
    (mapGet c.sessions name = some false → ReleaseSession c ⟨name⟩ = c) := by
  refine ⟨mapGet_mapSet_self c.sessions name false,
    fun m hm => mapGet_mapSet_ne c.sessions name m false hm,
    fun hmem => length_mapSet_of_mem c.sessions name false hmem,
    fun hfree => ?_⟩
  unfold ReleaseSession
  rw [mapSet_self_of_get c.sessions name false hfree]

/-- Witness for the amended C8: releasing the already-free `s1` leaves the
pool unchanged. -/
theorem c8_release_marks_free_witness :
    mapGet poolFree1.sessions "s1" = some false ∧
    ReleaseSession poolFree1 ⟨"s1"⟩ = poolFree1 :=
  ⟨rfl, (c8_release_marks_free poolFree1 "s1").2.2.2 rfl⟩

/-- C9: releasing a handle whose name the pool does not track returns
normally — ReleaseSession is a total function with no error path and no
panic — and silently inserts a brand-new record for that name marked free,
growing the record count by one, with no regard to capacity. -/
theorem c9_release_unknown_inserts (c : Client) (name : String)
    (h : mapGet c.sessions name = none) :
    (ReleaseSession c ⟨name⟩).sessions = c.sessions ++ [(name, false)] ∧
    (ReleaseSession c ⟨name⟩).sessions.length = c.sessions.length + 1 ∧
    mapGet (ReleaseSession c ⟨name⟩).sessions name = some false := by
  have hset : mapSet c.sessions name false = c.sessions ++ [(name, false)] :=
    mapSet_of_get_none c.sessions name false h
  refine ⟨hset, ?_, mapGet_mapSet_self c.sessions name false⟩
  show (mapSet c.sessions name false).length = c.sessions.length + 1
  rw [hset]
  simp

/-- Witness for C9: releasing the unknown `zz` on a full one-slot pool pushes
the record count to 2, beyond the capacity of 1. -/
theorem c9_release_unknown_inserts_witness :
    mapGet poolTaken1.sessions "zz" = none ∧
    ((ReleaseSession poolTaken1 ⟨"zz"⟩).sessions = poolTaken1.sessions ++ [("zz", false)] ∧
      (ReleaseSession poolTaken1 ⟨"zz"⟩).sessions.length = poolTaken1.sessions.length + 1 ∧
      mapGet (ReleaseSession poolTaken1 ⟨"zz"⟩).sessions "zz" = some false) ∧
    (ReleaseSession poolTaken1 ⟨"zz"⟩).sessions.length > poolTaken1.maxSessions :=
  ⟨rfl, c9_release_unknown_inserts poolTaken1 "zz" rfl, by decide⟩

/-- C10: at full capacity, when Acquire lands on the free record `n` but the
backend client re-initialization fails, the error is returned only after the
record has been marked in-use: the call fails yet the pool state changes (the
record flips from free to in-use), and every later successful Acquire returns
some other name — the leaked slot is never handed out again (and no caller
holds a handle to release it). -/
theorem c10_init_failure_leaks_record (c : Client) (n : String) (e : String)
    (cr : Except String String)
    (hnd : KeysNodup c.sessions)
    (hcap : ¬ c.sessions.length < c.maxSessions)
    (hfree : findFree c.sessions = some n) :
    AcquireSession c (.error e) cr =
      (.error (.initService e), { c with sessions := mapSet c.sessions n true }) ∧
    mapGet c.sessions n = some false ∧
    mapGet (mapSet c.sessions n true) n = some true ∧
    ∀ ns2 cr2 sess2 c'',
      AcquireSession { c with sessions := mapSet c.sessions n true } ns2 cr2 =
        (.ok sess2, c'') → sess2.name ≠ n := by
  have hmem := findFree_mem c.sessions n hfree
  refine ⟨?_, findFree_get c.sessions n hnd hfree,
    mapGet_mapSet_self c.sessions n true, ?_⟩
  · unfold AcquireSession
    simp [hcap, hfree]
  · intro ns2 cr2 sess2 c'' h2
    obtain ⟨-, hcases⟩ := acquire_ok_inv _ ns2 cr2 sess2 c'' h2
    rcases hcases with ⟨hlt, -⟩ | ⟨-, hfree2⟩
    · have hlt' : (mapSet c.sessions n true).length < c.maxSessions := hlt
      rw [length_mapSet_of_mem c.sessions n true hmem] at hlt'
      exact absurd hlt' hcap
    · intro heq
      have hnd' : KeysNodup (mapSet c.sessions n true) :=
        keys_mapSet_nodup c.sessions n true hnd
      have hfalse : mapGet (mapSet c.sessions n true) sess2.name = some false :=
        findFree_get (mapSet c.sessions n true) sess2.name hnd' hfree2
      rw [heq, mapGet_mapSet_self] at hfalse
      simp at hfalse

/-- Witness for C10 at a full one-slot pool with `s1` free and a failing
backend client init. -/
theorem c10_init_failure_leaks_record_witness :
    KeysNodup poolFree1.sessions ∧
    ¬ poolFree1.sessions.length < poolFree1.maxSessions ∧
    findFree poolFree1.sessions = some "s1" ∧
    (AcquireSession poolFree1 (.error "boom") (.ok "s2") =
        (.error (.initService "boom"),
          { poolFree1 with sessions := mapSet poolFree1.sessions "s1" true }) ∧
      mapGet poolFree1.sessions "s1" = some false ∧
      mapGet (mapSet poolFree1.sessions "s1" true) "s1" = some true ∧
      ∀ ns2 cr2 sess2 c'',
        AcquireSession { poolFree1 with sessions := mapSet poolFree1.sessions "s1" true }
            ns2 cr2 = (.ok sess2, c'') → sess2.name ≠ "s1") :=
  ⟨by decide, by decide, rfl,
    c10_init_failure_leaks_record poolFree1 "s1" "boom" (.ok "s2")
      (by decide) (by decide) rfl⟩

end Spannerr
